import Mathlib

/-!
Verification development for the SAGE repository (Rust sources).

Shallow embedding of:
  - the client SDK DID parser/formatter        (sage-client/src/did.rs)
  - the client SDK crypto and HPKE context     (sage-client/src/crypto.rs)
  - the client SDK session layer               (sage-client/src/session.rs)
  - the on-chain agent registry state machine  (sage-registry/src/lib.rs)
  - the registration verification hook         (sage-verification-hook/src/lib.rs)

Modelling conventions:
  - Rust byte vectors / arrays are `List Nat`; Rust strings are `List Char`
    (all string data relevant to the claims is ASCII, where Rust byte length
    and char count coincide).
  - u64 fields are `Nat` with arithmetic taken `% 2^64` exactly where the
    source performs u64 arithmetic; i64 timestamps are `Int` with Rust's
    truncating division written `Int.tdiv`.
  - Fallible Rust functions returning `Result` become `Except`-valued
    functions; stateful methods take and return the state explicitly.
  - Calls into external cryptographic crates (ed25519-dalek, x25519-dalek,
    aes-gcm, hkdf) are parameters of the embedding: the affected operations
    take the primitive (or the outcome of a signature verification) as an
    explicit argument, and theorems that need algebraic facts about a
    primitive (DH commutativity, AEAD round-trip) take them as hypotheses.
-/

namespace Sage

/-- 2^64, the modulus of Rust u64 arithmetic. -/
def U64 : Nat := 2 ^ 64

/-! ## DID parsing and formatting (sage-client/src/did.rs) -/

/-- Errors of the client SDK (sage-client/src/error.rs), payloads dropped. -/
inductive SdkError where
  | cryptoErr
  | sessionErr
  | didErr
  | validationErr
  | signatureVerification
  | sessionExpired
  | encryptionErr
  | decryptionErr
  deriving Repr, DecidableEq

/-- Rust `str::split(':')` on a char list: splits at every colon, keeping
empty segments (`"".split(':')` yields one empty segment). -/
def splitColon : List Char → List (List Char)
  | [] => [[]]
  | c :: rest =>
    if c = ':' then [] :: splitColon rest
    else
      match splitColon rest with
      | [] => [[c]]
      | p :: ps => (c :: p) :: ps

/-- The `Did` struct of did.rs. -/
structure Did where
  didString : List Char
  network : List Char
  address : List Char
  deriving Repr, DecidableEq

/-- `Did::new`: parse a DID string; requires exactly four colon-separated
segments whose first two are the literals `did` and `sage`. -/
def didNew (s : List Char) : Except SdkError Did :=
  match splitColon s with
  | [p0, p1, p2, p3] =>
    if p0 = "did".toList ∧ p1 = "sage".toList then
      Except.ok { didString := s, network := p2, address := p3 }
    else Except.error SdkError.validationErr
  | _ => Except.error SdkError.validationErr

/-- `Did::from_parts`: format `did:sage:<network>:<address>`. -/
def didFromParts (network address : List Char) : Did :=
  { didString := "did:sage:".toList ++ network ++ [':'] ++ address
    network := network
    address := address }

/-! ## On-chain agent registry (sage-registry/src/lib.rs)

Fixed-size on-chain arrays of capacity `MAX_KEYS_PER_AGENT = 5` are
`List`s of length 5 (Anchor zero-initializes accounts, so registration
yields fully populated lists); reads use `List.getD`, writes `List.set`.
The result of `verify_ed25519_signature` (external ed25519-dalek call on
a message assembled from the owner key and the agent nonce or DID) enters
each instruction as an explicit `Bool`/`List Bool` argument. -/

def MAX_KEYS_PER_AGENT : Nat := 5

def MAX_DID_LEN : Nat := 128

def MAX_NAME_LEN : Nat := 64

def MAX_DESCRIPTION_LEN : Nat := 256

def MAX_ENDPOINT_LEN : Nat := 128

def MAX_CAPABILITIES_LEN : Nat := 256

/-- The registry's `ErrorCode` enum. -/
inductive RegErr where
  | DIDTooLong
  | NameTooLong
  | DescriptionTooLong
  | EndpointTooLong
  | CapabilitiesTooLong
  | NoKeysProvided
  | TooManyKeys
  | KeyArrayMismatch
  | UnsupportedKeyType
  | InvalidSignature
  | AgentAlreadyInactive
  | InvalidKeyIndex
  | KeyAlreadyRevoked
  | CannotRevokeLastKey
  deriving Repr, DecidableEq

/-- The `Agent` account. Owner pubkeys are opaque (`Nat`). -/
structure Agent where
  did : List Char
  name : List Char
  description : List Char
  endpoint : List Char
  capabilities : List Char
  owner : Nat
  registeredAt : Int
  updatedAt : Int
  active : Bool
  nonce : Nat
  keyCount : Nat
  publicKeys : List (List Nat)
  keyTypes : List Nat
  keyRevoked : List Bool
  deriving Repr, DecidableEq

/-- `(0..key_count).filter(|i| !key_revoked[i]).count()` of `revoke_key`. -/
def activeKeyCount (a : Agent) : Nat :=
  ((Finset.range a.keyCount).filter fun i => a.keyRevoked.getD i false = false).card

/-- The per-key loop of `register_agent`: `require!(key_type == 0)` then
the Ed25519 ownership-proof verification, in index order. -/
def checkRegKeys : List (Nat × Bool) → Except RegErr Unit
  | [] => Except.ok ()
  | (kt, sigOk) :: rest =>
    if kt ≠ 0 then Except.error RegErr.UnsupportedKeyType
    else if ¬sigOk then Except.error RegErr.InvalidSignature
    else checkRegKeys rest

/-- Store a prefix into a zero-initialized capacity-5 on-chain array. -/
def storeKeys {α : Type} (xs : List α) (zero : α) : List α :=
  xs ++ List.replicate (MAX_KEYS_PER_AGENT - xs.length) zero

/-- `register_agent`. `sigsOk[i]` is the outcome of the ed25519-dalek
verification of `signatures[i]` under `public_keys[i]` over
`owner || did`. -/
def registerAgent (did name description endpoint capabilities : List Char)
    (publicKeys : List (List Nat)) (keyTypes : List Nat) (sigsOk : List Bool)
    (owner : Nat) (now : Int) : Except RegErr Agent :=
  if ¬(did.length ≤ MAX_DID_LEN) then Except.error RegErr.DIDTooLong
  else if ¬(name.length ≤ MAX_NAME_LEN) then Except.error RegErr.NameTooLong
  else if ¬(description.length ≤ MAX_DESCRIPTION_LEN) then Except.error RegErr.DescriptionTooLong
  else if ¬(endpoint.length ≤ MAX_ENDPOINT_LEN) then Except.error RegErr.EndpointTooLong
  else if ¬(capabilities.length ≤ MAX_CAPABILITIES_LEN) then Except.error RegErr.CapabilitiesTooLong
  else if publicKeys.isEmpty then Except.error RegErr.NoKeysProvided
  else if ¬(publicKeys.length ≤ MAX_KEYS_PER_AGENT) then Except.error RegErr.TooManyKeys
  else if ¬(publicKeys.length = keyTypes.length) then Except.error RegErr.KeyArrayMismatch
  else if ¬(publicKeys.length = sigsOk.length) then Except.error RegErr.KeyArrayMismatch
  else
    match checkRegKeys (keyTypes.zip sigsOk) with
    | Except.error e => Except.error e
    | Except.ok _ =>
      Except.ok
        { did := did, name := name, description := description
          endpoint := endpoint, capabilities := capabilities
          owner := owner, registeredAt := now, updatedAt := now
          active := true, nonce := 0, keyCount := publicKeys.length
          publicKeys := storeKeys publicKeys (List.replicate 32 0)
          keyTypes := storeKeys keyTypes 0
          keyRevoked := storeKeys (List.replicate publicKeys.length false) false }

/-- `add_key`. `sigOk` is the ed25519-dalek verification outcome of
`signature` under `public_key` over `owner || nonce_le_bytes`. -/
def addKey (a : Agent) (publicKey : List Nat) (keyType : Nat) (sigOk : Bool)
    (now : Int) : Except RegErr Agent :=
  if ¬(a.keyCount < MAX_KEYS_PER_AGENT) then Except.error RegErr.TooManyKeys
  else if ¬(keyType = 0) then Except.error RegErr.UnsupportedKeyType
  else if ¬sigOk then Except.error RegErr.InvalidSignature
  else
    Except.ok
      { a with
        publicKeys := a.publicKeys.set a.keyCount publicKey
        keyTypes := a.keyTypes.set a.keyCount keyType
        keyRevoked := a.keyRevoked.set a.keyCount false
        keyCount := a.keyCount + 1
        nonce := (a.nonce + 1) % U64
        updatedAt := now }

/-- `revoke_key`. -/
def revokeKey (a : Agent) (keyIndex : Nat) (now : Int) : Except RegErr Agent :=
  if ¬(keyIndex < a.keyCount) then Except.error RegErr.InvalidKeyIndex
  else if a.keyRevoked.getD keyIndex false then Except.error RegErr.KeyAlreadyRevoked
  else if ¬(activeKeyCount a > 1) then Except.error RegErr.CannotRevokeLastKey
  else
    Except.ok
      { a with
        keyRevoked := a.keyRevoked.set keyIndex true
        nonce := (a.nonce + 1) % U64
        updatedAt := now }

/-- `rotate_key`. `sigOk` is the verification outcome for the new key. -/
def rotateKey (a : Agent) (oldKeyIndex : Nat) (newPublicKey : List Nat)
    (newKeyType : Nat) (sigOk : Bool) (now : Int) : Except RegErr Agent :=
  if ¬(oldKeyIndex < a.keyCount) then Except.error RegErr.InvalidKeyIndex
  else if a.keyRevoked.getD oldKeyIndex false then Except.error RegErr.KeyAlreadyRevoked
  else if ¬(newKeyType = 0) then Except.error RegErr.UnsupportedKeyType
  else if ¬sigOk then Except.error RegErr.InvalidSignature
  else
    Except.ok
      { a with
        publicKeys := a.publicKeys.set oldKeyIndex newPublicKey
        keyTypes := a.keyTypes.set oldKeyIndex newKeyType
        nonce := (a.nonce + 1) % U64
        updatedAt := now }

/-- The `if let Some(n) = name` block of `update_agent`. -/
def updName (a : Agent) : Option (List Char) → Except RegErr Agent
  | none => Except.ok a
  | some n =>
    if ¬(n.length ≤ MAX_NAME_LEN) then Except.error RegErr.NameTooLong
    else Except.ok { a with name := n }

/-- The `if let Some(d) = description` block of `update_agent`. -/
def updDescription (a : Agent) : Option (List Char) → Except RegErr Agent
  | none => Except.ok a
  | some d =>
    if ¬(d.length ≤ MAX_DESCRIPTION_LEN) then Except.error RegErr.DescriptionTooLong
    else Except.ok { a with description := d }

/-- The `if let Some(e) = endpoint` block of `update_agent`. -/
def updEndpoint (a : Agent) : Option (List Char) → Except RegErr Agent
  | none => Except.ok a
  | some e =>
    if ¬(e.length ≤ MAX_ENDPOINT_LEN) then Except.error RegErr.EndpointTooLong
    else Except.ok { a with endpoint := e }

/-- The `if let Some(c) = capabilities` block of `update_agent`. -/
def updCapabilities (a : Agent) : Option (List Char) → Except RegErr Agent
  | none => Except.ok a
  | some c =>
    if ¬(c.length ≤ MAX_CAPABILITIES_LEN) then Except.error RegErr.CapabilitiesTooLong
    else Except.ok { a with capabilities := c }

/-- `update_agent`: each provided field is length-checked and assigned in
order; a failure aborts the transaction. -/
def updateAgent (a : Agent) (name description endpoint capabilities : Option (List Char))
    (now : Int) : Except RegErr Agent :=
  match updName a name with
  | Except.error er => Except.error er
  | Except.ok a1 =>
    match updDescription a1 description with
    | Except.error er => Except.error er
    | Except.ok a2 =>
      match updEndpoint a2 endpoint with
      | Except.error er => Except.error er
      | Except.ok a3 =>
        match updCapabilities a3 capabilities with
        | Except.error er => Except.error er
        | Except.ok a4 => Except.ok { a4 with updatedAt := now }

/-- `deactivate_agent`. -/
def deactivateAgent (a : Agent) (now : Int) : Except RegErr Agent :=
  if ¬a.active then Except.error RegErr.AgentAlreadyInactive
  else Except.ok { a with active := false, updatedAt := now }

/-- One mutating registry instruction on an existing agent account. -/
inductive RegOp where
  | opAddKey (publicKey : List Nat) (keyType : Nat) (sigOk : Bool) (now : Int)
  | opRevokeKey (keyIndex : Nat) (now : Int)
  | opRotateKey (oldKeyIndex : Nat) (newPublicKey : List Nat)
      (newKeyType : Nat) (sigOk : Bool) (now : Int)
  | opUpdateAgent (name description endpoint capabilities : Option (List Char)) (now : Int)
  | opDeactivate (now : Int)

/-- Run one instruction; a failing instruction is a failed transaction and
leaves the account unchanged. -/
def stepOk (a : Agent) : RegOp → Agent
  | RegOp.opAddKey pk kt s now => (addKey a pk kt s now).toOption.getD a
  | RegOp.opRevokeKey i now => (revokeKey a i now).toOption.getD a
  | RegOp.opRotateKey i pk kt s now => (rotateKey a i pk kt s now).toOption.getD a
  | RegOp.opUpdateAgent n d e c now => (updateAgent a n d e c now).toOption.getD a
  | RegOp.opDeactivate now => (deactivateAgent a now).toOption.getD a

/-- Run a sequence of instructions. -/
def runOps (a : Agent) (ops : List RegOp) : Agent :=
  ops.foldl stepOk a

/-- Agent states reachable from a successful registration. -/
inductive ReachableAgent : Agent → Prop where
  | base {did name description endpoint capabilities publicKeys keyTypes sigsOk owner now a} :
      registerAgent did name description endpoint capabilities
        publicKeys keyTypes sigsOk owner now = Except.ok a →
      ReachableAgent a
  | step {a} (op : RegOp) : ReachableAgent a → ReachableAgent (stepOk a op)

/-- Structural well-formedness that registration establishes and every
instruction preserves: the capacity-5 on-chain array is fully populated,
`key_count` fits, and at least one key is non-revoked. -/
def GoodAgent (a : Agent) : Prop :=
  a.keyCount ≤ MAX_KEYS_PER_AGENT
  ∧ a.keyRevoked.length = MAX_KEYS_PER_AGENT
  ∧ 1 ≤ activeKeyCount a

/-- Test fixture: an all-zero 32-byte key. -/
def zeroKey : List Nat := List.replicate 32 0

/-- Test fixture: a 32-byte key of ones. -/
def sampleKey1 : List Nat := List.replicate 32 1

/-- Test fixture: a 32-byte key of twos. -/
def sampleKey2 : List Nat := List.replicate 32 2

/-- Test fixture: the agent produced by a concrete two-key registration. -/
def sampleAgent : Agent :=
  { did := "did:sage:a:b".toList, name := "n".toList
    description := "ds".toList, endpoint := "ep".toList
    capabilities := "cp".toList, owner := 7
    registeredAt := 0, updatedAt := 0, active := true, nonce := 0
    keyCount := 2
    publicKeys := [sampleKey1, sampleKey2, zeroKey, zeroKey, zeroKey]
    keyTypes := List.replicate 5 0
    keyRevoked := List.replicate 5 false }

/-- Test fixture: `sampleAgent` after deactivation. -/
def inactiveAgent : Agent := { sampleAgent with active := false }

/-! ## Verification hook (sage-verification-hook/src/lib.rs)

`verify_registration` mutates the per-principal `UserState` account; the
embedding threads the state explicitly and returns the post-state of the
function body together with the result.  The ed25519-dalek verification of
`signature` over `message` under the signer's key enters as `sigOk`. -/

def MAX_REGISTRATIONS_PER_DAY : Nat := 5

def REGISTRATION_COOLDOWN : Int := 60

/-- The hook's `ErrorCode` enum. -/
inductive HookErr where
  | Blacklisted
  | CooldownActive
  | DailyLimitReached
  | InvalidDIDFormat
  | InvalidSignature
  | HookDisabled
  deriving Repr, DecidableEq

/-- The per-principal `UserState` account. -/
structure UserState where
  registrationCount : Nat
  lastRegistration : Int
  lastDay : Int
  blacklisted : Bool
  deriving Repr, DecidableEq

/-- Rust `did.starts_with("did:")`. -/
def startsWithDid (did : List Char) : Bool :=
  decide (did.take 4 = "did:".toList)

/-- `verify_registration`: blacklist, cooldown, day-rollover reset plus
daily quota, DID shape, then signature. -/
def verifyRegistration (u : UserState) (did : List Char) (sigOk : Bool)
    (now : Int) : Except HookErr Unit × UserState :=
  if u.blacklisted then (Except.error HookErr.Blacklisted, u)
  else if u.lastRegistration > 0 ∧ now < u.lastRegistration + REGISTRATION_COOLDOWN then
    (Except.error HookErr.CooldownActive, u)
  else
    let currentDay := Int.tdiv now 86400
    let u1 := if u.lastDay ≠ currentDay then
        { u with registrationCount := 0, lastDay := currentDay }
      else u
    if ¬(u1.registrationCount < MAX_REGISTRATIONS_PER_DAY) then
      (Except.error HookErr.DailyLimitReached, u1)
    else if ¬(startsWithDid did = true) then (Except.error HookErr.InvalidDIDFormat, u1)
    else if ¬(10 ≤ did.length) then (Except.error HookErr.InvalidDIDFormat, u1)
    else if ¬(sigOk = true) then (Except.error HookErr.InvalidSignature, u1)
    else (Except.ok (), u1)

/-! ## HPKE context and session layer (sage-client/src/crypto.rs, session.rs)

The AES-256-GCM core (the aes-gcm crate's `encrypt`/`decrypt` behind the
length checks of `encrypt_aes_gcm`/`decrypt_aes_gcm`) is a parameter
`Aead`; the X25519/HKDF primitives of the setup functions are a parameter
`HpkeCrypto`.  The theorems that need them assume DH commutativity and
AEAD round-trip as hypotheses and are instantiated on executable toy
primitives by the witnesses. -/

/-- The AEAD core: total encryption, decryption returning `none` on an
authentication failure (key, nonce, text). -/
structure Aead where
  enc : List Nat → List Nat → List Nat → List Nat
  dec : List Nat → List Nat → List Nat → Option (List Nat)

/-- `Crypto::encrypt_aes_gcm`: 32-byte key and 12-byte nonce enforced. -/
def encryptAesGcm (A : Aead) (plaintext key nonceBytes : List Nat) :
    Except SdkError (List Nat) :=
  if ¬(key.length = 32) then Except.error SdkError.cryptoErr
  else if ¬(nonceBytes.length = 12) then Except.error SdkError.cryptoErr
  else Except.ok (A.enc key nonceBytes plaintext)

/-- `Crypto::decrypt_aes_gcm`. -/
def decryptAesGcm (A : Aead) (ciphertext key nonceBytes : List Nat) :
    Except SdkError (List Nat) :=
  if ¬(key.length = 32) then Except.error SdkError.cryptoErr
  else if ¬(nonceBytes.length = 12) then Except.error SdkError.cryptoErr
  else
    match A.dec key nonceBytes ciphertext with
    | some pt => Except.ok pt
    | none => Except.error SdkError.decryptionErr

/-- The `HpkeContext` struct: AEAD key and u64 sequence counter. -/
structure HpkeContext where
  key : List Nat
  sequence : Nat
  deriving Repr, DecidableEq

/-- `u64::to_be_bytes` of the sequence counter. -/
def beBytes8 (n : Nat) : List Nat :=
  [n / 2 ^ 56 % 256, n / 2 ^ 48 % 256, n / 2 ^ 40 % 256, n / 2 ^ 32 % 256,
   n / 2 ^ 24 % 256, n / 2 ^ 16 % 256, n / 2 ^ 8 % 256, n % 256]

/-- The 12-byte nonce of `seal`: 4 zero bytes then the sequence BE. -/
def nonce12 (seq : Nat) : List Nat := [0, 0, 0, 0] ++ beBytes8 seq

/-- `HpkeContext::seal`: derive the nonce from the current sequence,
increment the sequence (before the AEAD call, as in the source), encrypt,
prepend the nonce. -/
def hpkeSeal (A : Aead) (ctx : HpkeContext) (plaintext : List Nat) :
    Except SdkError (List Nat) × HpkeContext :=
  let n12 := nonce12 ctx.sequence
  let ctx' : HpkeContext := { ctx with sequence := (ctx.sequence + 1) % U64 }
  match encryptAesGcm A plaintext ctx.key n12 with
  | Except.ok ct => (Except.ok (n12 ++ ct), ctx')
  | Except.error e => (Except.error e, ctx')

/-- `HpkeContext::open`: reject inputs shorter than 12 bytes (sequence
untouched); otherwise increment the sequence unconditionally and decrypt
the remainder under the embedded nonce. -/
def hpkeOpen (A : Aead) (ctx : HpkeContext) (ciphertext : List Nat) :
    Except SdkError (List Nat) × HpkeContext :=
  if ciphertext.length < 12 then (Except.error SdkError.decryptionErr, ctx)
  else
    (decryptAesGcm A (ciphertext.drop 12) ctx.key (ciphertext.take 12),
     { ctx with sequence := (ctx.sequence + 1) % U64 })

/-- The X25519/HKDF primitives used by the HPKE setup functions:
public key derivation, Diffie-Hellman, and `Crypto::derive_key`. -/
structure HpkeCrypto where
  pubOf : List Nat → List Nat
  dh : List Nat → List Nat → List Nat
  kdf : List Nat → List Nat → Nat → List Nat

/-- The bytes of `b"SAGE HPKE v1"`. -/
def infoSage : List Nat := [83, 65, 71, 69, 32, 72, 80, 75, 69, 32, 118, 49]

/-- `setup_hpke_sender`: `eph` is the internally generated ephemeral
secret (32 bytes by construction in the source). -/
def setupHpkeSender (P : HpkeCrypto) (eph receiverPublicKey : List Nat) :
    Except SdkError (HpkeContext × List Nat) :=
  if ¬(receiverPublicKey.length = 32) then Except.error SdkError.cryptoErr
  else
    Except.ok
      ({ key := P.kdf (P.dh eph receiverPublicKey) infoSage 32, sequence := 0 },
       P.pubOf eph)

/-- `setup_hpke_receiver`. -/
def setupHpkeReceiver (P : HpkeCrypto) (encapsulatedKey receiverPrivateKey : List Nat) :
    Except SdkError HpkeContext :=
  if ¬(receiverPrivateKey.length = 32) then Except.error SdkError.cryptoErr
  else if ¬(encapsulatedKey.length = 32) then Except.error SdkError.cryptoErr
  else
    Except.ok
      { key := P.kdf (P.dh receiverPrivateKey encapsulatedKey) infoSage 32
        sequence := 0 }

/-- The `Session` struct. -/
structure Session where
  sessionId : List Char
  clientDid : List Char
  serverDid : List Char
  hpkeContext : HpkeContext
  createdAt : Int
  expiresAt : Int
  lastActivity : Int
  messageCount : Nat
  deriving Repr, DecidableEq

/-- `Session::new`. -/
def sessionNew (sessionId clientDid serverDid : List Char) (ctx : HpkeContext)
    (maxAgeSeconds : Int) (now : Int) : Session :=
  { sessionId := sessionId, clientDid := clientDid, serverDid := serverDid
    hpkeContext := ctx, createdAt := now, expiresAt := now + maxAgeSeconds
    lastActivity := now, messageCount := 0 }

/-- `Session::is_expired`: `now > expires_at`. -/
def isExpired (s : Session) (now : Int) : Bool := decide (s.expiresAt < now)

/-- `Session::update_activity`. -/
def updateActivity (s : Session) (now : Int) : Except SdkError Unit × Session :=
  if isExpired s now then (Except.error (SdkError.sessionExpired), s)
  else (Except.ok (), { s with lastActivity := now })

/-- `Session::encrypt`: expiry check (the inner `update_activity` re-check
sees the same `now` and therefore passes), then activity stamp, then the
`message_count` increment, then `seal` — in the source's order, so the
count is incremented even when `seal` fails. -/
def sessionEncrypt (A : Aead) (s : Session) (plaintext : List Nat) (now : Int) :
    Except SdkError (List Nat) × Session :=
  if isExpired s now then (Except.error (SdkError.sessionExpired), s)
  else
    let s2 : Session := { s with lastActivity := now
                                 messageCount := (s.messageCount + 1) % U64 }
    let r := hpkeSeal A s2.hpkeContext plaintext
    (r.fst, { s2 with hpkeContext := r.snd })

/-- `Session::decrypt`: expiry check, activity stamp, `open`. -/
def sessionDecrypt (A : Aead) (s : Session) (ciphertext : List Nat) (now : Int) :
    Except SdkError (List Nat) × Session :=
  if isExpired s now then (Except.error (SdkError.sessionExpired), s)
  else
    let s1 : Session := { s with lastActivity := now }
    let r := hpkeOpen A s1.hpkeContext ciphertext
    (r.fst, { s1 with hpkeContext := r.snd })

/-- One client-side session operation, for operation traces. -/
inductive SOp where
  | opEncrypt (plaintext : List Nat) (now : Int)
  | opDecrypt (ciphertext : List Nat) (now : Int)
  | opUpdateActivity (now : Int)

/-- Apply one session operation (the unit result of `update_activity`
is coerced to an empty byte string). -/
def applySOp (A : Aead) (s : Session) : SOp → Except SdkError (List Nat) × Session
  | SOp.opEncrypt pt now => sessionEncrypt A s pt now
  | SOp.opDecrypt ct now => sessionDecrypt A s ct now
  | SOp.opUpdateActivity now =>
    let r := updateActivity s now
    (r.fst.map fun _ => [], r.snd)

/-- Run a trace of session operations. -/
def runSOps (A : Aead) (s : Session) (ops : List SOp) : Session :=
  ops.foldl (fun s op => (applySOp A s op).snd) s

/-- Number of `encrypt` calls in a trace that return a successful result. -/
def okEncCount (A : Aead) : Session → List SOp → Nat
  | _, [] => 0
  | s, op :: ops =>
    (match op, (applySOp A s op).fst with
     | SOp.opEncrypt _ _, Except.ok _ => 1
     | _, _ => 0) + okEncCount A (applySOp A s op).snd ops

/-- Number of `encrypt` calls in a trace that pass the expiry check
(those are exactly the calls that increment `message_count`). -/
def passedEncCount (A : Aead) : Session → List SOp → Nat
  | _, [] => 0
  | s, op :: ops =>
    (match op with
     | SOp.opEncrypt _ now => if isExpired s now then 0 else 1
     | _ => 0) + passedEncCount A (applySOp A s op).snd ops

/-- The `SessionManager` struct; the `HashMap` is an association list with
unique keys (insertion replaces an existing binding). -/
structure SessionManager where
  sessions : List (List Char × Session)
  maxSessions : Nat

/-- `HashMap::insert`: replace the binding if the key is present,
otherwise append. -/
def smInsert (l : List (List Char × Session)) (sid : List Char) (s : Session) :
    List (List Char × Session) :=
  if l.any fun p => decide (p.fst = sid) then
    l.map fun p => if p.fst = sid then (sid, s) else p
  else l ++ [(sid, s)]

/-- `SessionManager::cleanup_expired`: remove every expired entry, return
the number removed (removal by collected keys coincides with filtering
because the map's keys are unique). -/
def cleanupExpired (m : SessionManager) (now : Int) : SessionManager × Nat :=
  ({ m with sessions := m.sessions.filter fun p => !isExpired p.snd now },
   (m.sessions.filter fun p => isExpired p.snd now).length)

/-- `SessionManager::add_session`: sweep, capacity check, insert. -/
def addSession (m : SessionManager) (s : Session) (now : Int) :
    Except SdkError Unit × SessionManager :=
  let m1 := (cleanupExpired m now).fst
  if m1.sessions.length ≥ m.maxSessions then (Except.error (SdkError.sessionErr), m1)
  else (Except.ok (), { m1 with sessions := smInsert m1.sessions s.sessionId s })

/-- `SessionManager::remove_session`. -/
def removeSession (m : SessionManager) (sid : List Char) : SessionManager :=
  { m with sessions := m.sessions.filter fun p => !decide (p.fst = sid) }

/-- `SessionManager::count`: live count after a sweep. -/
def smCount (m : SessionManager) (now : Int) : Nat :=
  ((cleanupExpired m now).fst).sessions.length

/-! ### Concrete fixtures for witnesses and counterexamples -/

/-- Toy AEAD instantiation (identity cipher) for concrete evaluation. -/
def toyAead : Aead := { enc := fun _ _ pt => pt, dec := fun _ _ ct => some ct }

/-- Toy X25519/HKDF instantiation with commutative DH for concrete
evaluation. -/
def toyHpke : HpkeCrypto :=
  { pubOf := fun k => k
    dh := fun a b => [a.sum + b.sum]
    kdf := fun _ _ n => List.replicate n 0 }

/-- A session whose context key has the wrong length (constructible since
`HpkeContext::new` accepts any key vector). -/
def badSession : Session :=
  { sessionId := "s".toList, clientDid := "c".toList, serverDid := "v".toList
    hpkeContext := { key := [], sequence := 0 }
    createdAt := 0, expiresAt := 100, lastActivity := 0, messageCount := 0 }

/-- A fresh receiver-side session with a well-formed 32-byte key. -/
def replaySession : Session :=
  { sessionId := "r".toList, clientDid := "c".toList, serverDid := "v".toList
    hpkeContext := { key := List.replicate 32 0, sequence := 0 }
    createdAt := 0, expiresAt := 1000, lastActivity := 0, messageCount := 0 }

/-- The ciphertext `seal` produces for plaintext `[7, 7]` at sequence 0
under `toyAead`. -/
def replayCiphertext : List Nat := List.replicate 12 0 ++ [7, 7]

/-- Two live sessions for the session-manager witness. -/
def sessA : Session := sessionNew "a".toList "c".toList "v".toList
  { key := List.replicate 32 0, sequence := 0 } 100 0

/-- Second live session for the session-manager witness. -/
def sessB : Session := sessionNew "b".toList "c".toList "v".toList
  { key := List.replicate 32 0, sequence := 0 } 100 0

/-- A capacity-2 manager holding the two live sessions. -/
def fullManager : SessionManager :=
  { sessions := [("a".toList, sessA), ("b".toList, sessB)], maxSessions := 2 }

/-! ## Theorems -/

theorem splitColon_no_colon : ∀ {xs : List Char}, ':' ∉ xs → splitColon xs = [xs]
  | [], _ => rfl
  | c :: rest, h => by
    have hc : ¬ c = ':' := fun e => h (e ▸ List.mem_cons_self c rest)
    have hr : ':' ∉ rest := fun m => h (List.mem_cons_of_mem _ m)
    simp [splitColon, hc, splitColon_no_colon hr]

theorem splitColon_append : ∀ (xs ys : List Char), ':' ∉ xs →
    splitColon (xs ++ ':' :: ys) = xs :: splitColon ys
  | [], ys, _ => by simp [splitColon]
  | c :: xs, ys, h => by
    have hc : ¬ c = ':' := fun e => h (e ▸ List.mem_cons_self c xs)
    have hx : ':' ∉ xs := fun m => h (List.mem_cons_of_mem _ m)
    simp [splitColon, hc, splitColon_append xs ys hx]

theorem splitColon_fromParts (n a : List Char) (hn : ':' ∉ n) (ha : ':' ∉ a) :
    splitColon (didFromParts n a).didString
      = ["did".toList, "sage".toList, n, a] := by
  have e : (didFromParts n a).didString
      = "did".toList ++ ':' :: ("sage".toList ++ ':' :: (n ++ ':' :: a)) := by
    show "did:sage:".toList ++ n ++ [':'] ++ a = _
    simp [List.append_assoc]
  rw [e, splitColon_append _ _ (by decide), splitColon_append _ _ (by decide),
    splitColon_append _ _ hn, splitColon_no_colon ha]

/-- C8 (amended): `Did::from_parts(network, address)` always produces the
string `did:sage:<network>:<address>`; when neither `network` nor `address`
contains a colon, `Did::new` on that string succeeds and returns the input
network and address; and `Did::new` fails on every string that does not
split into exactly four colon-separated segments whose first two are the
literals `did` and `sage`. -/
theorem didNew_fromParts_roundtrip (n a : List Char) (hn : ':' ∉ n) (ha : ':' ∉ a) :
    (didFromParts n a).didString = "did:sage:".toList ++ n ++ [':'] ++ a
    ∧ didNew (didFromParts n a).didString = Except.ok (didFromParts n a)
    ∧ ∀ s : List Char,
        (∀ p2 p3 : List Char, splitColon s ≠ ["did".toList, "sage".toList, p2, p3]) →
        didNew s = Except.error SdkError.validationErr := by
  refine ⟨rfl, ?_, ?_⟩
  · unfold didNew
    rw [splitColon_fromParts n a hn ha]
    simp [didFromParts]
  · intro s hs
    unfold didNew
    rcases h4 : splitColon s with _ | ⟨p0, _ | ⟨p1, _ | ⟨p2, _ | ⟨p3, _ | t⟩⟩⟩⟩
    · rfl
    · rfl
    · rfl
    · rfl
    · by_cases hc : p0 = "did".toList ∧ p1 = "sage".toList
      · exact absurd (by rw [h4, hc.1, hc.2]) (hs p2 p3)
      · exact if_neg hc
    · rfl

/-- C8 witness: the round-trip theorem applied at network `eth`,
address `0xA`. -/
theorem didNew_fromParts_roundtrip_witness :
    didNew (didFromParts "eth".toList "0xA".toList).didString
      = Except.ok (didFromParts "eth".toList "0xA".toList) :=
  (didNew_fromParts_roundtrip "eth".toList "0xA".toList
    (by decide) (by decide)).2.1

/-- C8 counterexample: with `network = "a:b"` (which contains a colon) and
`address = "c"`, `Did::new` on the output of `Did::from_parts` fails instead
of returning the input parts, refuting the unrestricted round-trip claim. -/
theorem didNew_fromParts_colon_fails :
    didNew (didFromParts ('a' :: ':' :: 'b' :: []) ('c' :: [])).didString
      = Except.error SdkError.validationErr := by rfl

/-! ### List helpers -/

theorem getD_set_self {α : Type} : ∀ (l : List α) (i : Nat) (x d : α),
    i < l.length → (l.set i x).getD i d = x
  | [], i, _, _, h => absurd h (Nat.not_lt_zero i)
  | _ :: _, 0, _, _, _ => rfl
  | _ :: l, i + 1, x, d, h => getD_set_self l i x d (Nat.lt_of_succ_lt_succ h)

theorem getD_set_ne {α : Type} : ∀ (l : List α) (i j : Nat) (x d : α),
    i ≠ j → (l.set i x).getD j d = l.getD j d
  | [], _, _, _, _, _ => rfl
  | _ :: _, 0, 0, _, _, h => absurd rfl h
  | _ :: _, 0, _ + 1, _, _, _ => rfl
  | _ :: _, _ + 1, 0, _, _, _ => rfl
  | _ :: l, i + 1, j + 1, x, d, h =>
    getD_set_ne l i j x d (fun e => h (by rw [e]))

theorem getD_replicate {α : Type} : ∀ (n i : Nat) (d : α),
    (List.replicate n d).getD i d = d
  | 0, _, _ => rfl
  | _ + 1, 0, _ => rfl
  | n + 1, i + 1, d => getD_replicate n i d

/-! ### Registry instruction shapes -/

theorem registerAgent_ok {did name description endpoint capabilities : List Char}
    {publicKeys : List (List Nat)} {keyTypes : List Nat} {sigsOk : List Bool}
    {owner : Nat} {now : Int} {a : Agent}
    (h : registerAgent did name description endpoint capabilities
        publicKeys keyTypes sigsOk owner now = Except.ok a) :
    a.nonce = 0 ∧ a.active = true ∧ a.keyCount = publicKeys.length
      ∧ 1 ≤ publicKeys.length ∧ publicKeys.length ≤ MAX_KEYS_PER_AGENT
      ∧ a.keyRevoked = List.replicate MAX_KEYS_PER_AGENT false
      ∧ a.registeredAt = now ∧ a.updatedAt = now ∧ a.owner = owner := by
  unfold registerAgent at h
  split at h
  next => cases h
  next =>
  split at h
  next => cases h
  next =>
  split at h
  next => cases h
  next =>
  split at h
  next => cases h
  next =>
  split at h
  next => cases h
  next =>
  split at h
  next => cases h
  next hne =>
  split at h
  next => cases h
  next hlen =>
  split at h
  next => cases h
  next =>
  split at h
  next => cases h
  next =>
  split at h
  next => cases h
  next =>
    cases h
    have hle : publicKeys.length ≤ MAX_KEYS_PER_AGENT := not_not.mp hlen
    refine ⟨rfl, rfl, rfl, ?_, hle, ?_, rfl, rfl, rfl⟩
    · exact List.length_pos.mpr fun e => hne (by rw [e]; rfl)
    · show storeKeys (List.replicate publicKeys.length false) false = _
      have hle5 : publicKeys.length ≤ 5 := hle
      unfold storeKeys MAX_KEYS_PER_AGENT
      rw [List.length_replicate, ← List.replicate_add]
      congr 1
      omega

theorem addKey_ok_eq {a : Agent} {pk : List Nat} {kt : Nat} {s : Bool}
    {now : Int} {b : Agent} (h : addKey a pk kt s now = Except.ok b) :
    b = { a with
          publicKeys := a.publicKeys.set a.keyCount pk
          keyTypes := a.keyTypes.set a.keyCount kt
          keyRevoked := a.keyRevoked.set a.keyCount false
          keyCount := a.keyCount + 1
          nonce := (a.nonce + 1) % U64
          updatedAt := now }
      ∧ a.keyCount < MAX_KEYS_PER_AGENT ∧ kt = 0 ∧ s = true := by
  unfold addKey at h
  split at h
  next => cases h
  next hk =>
  split at h
  next => cases h
  next hkt =>
  split at h
  next => cases h
  next hs =>
    cases h
    exact ⟨rfl, not_not.mp hk, not_not.mp hkt, not_not.mp hs⟩

theorem revokeKey_ok_eq {a : Agent} {i : Nat} {now : Int} {b : Agent}
    (h : revokeKey a i now = Except.ok b) :
    b = { a with
          keyRevoked := a.keyRevoked.set i true
          nonce := (a.nonce + 1) % U64
          updatedAt := now }
      ∧ i < a.keyCount ∧ a.keyRevoked.getD i false = false
      ∧ 1 < activeKeyCount a := by
  unfold revokeKey at h
  split at h
  next => cases h
  next hi =>
  split at h
  next => cases h
  next hrev =>
  split at h
  next => cases h
  next hcnt =>
    cases h
    refine ⟨rfl, not_not.mp hi, ?_, not_not.mp hcnt⟩
    cases hb : a.keyRevoked.getD i false with
    | false => rfl
    | true => exact absurd hb hrev

theorem rotateKey_ok_eq {a : Agent} {i : Nat} {pk : List Nat} {kt : Nat}
    {s : Bool} {now : Int} {b : Agent}
    (h : rotateKey a i pk kt s now = Except.ok b) :
    b = { a with
          publicKeys := a.publicKeys.set i pk
          keyTypes := a.keyTypes.set i kt
          nonce := (a.nonce + 1) % U64
          updatedAt := now }
      ∧ i < a.keyCount ∧ a.keyRevoked.getD i false = false ∧ kt = 0 := by
  unfold rotateKey at h
  split at h
  next => cases h
  next hi =>
  split at h
  next => cases h
  next hrev =>
  split at h
  next => cases h
  next hkt =>
  split at h
  next => cases h
  next =>
    cases h
    refine ⟨rfl, not_not.mp hi, ?_, not_not.mp hkt⟩
    cases hb : a.keyRevoked.getD i false with
    | false => rfl
    | true => exact absurd hb hrev

theorem deactivateAgent_ok_eq {a : Agent} {now : Int} {b : Agent}
    (h : deactivateAgent a now = Except.ok b) :
    b = { a with active := false, updatedAt := now } ∧ a.active = true := by
  unfold deactivateAgent at h
  split at h
  next => cases h
  next hact =>
    cases h
    exact ⟨rfl, not_not.mp hact⟩

theorem updName_same {a : Agent} {o : Option (List Char)} {b : Agent}
    (h : updName a o = Except.ok b) :
    b.keyCount = a.keyCount ∧ b.keyRevoked = a.keyRevoked ∧ b.nonce = a.nonce
      ∧ b.active = a.active ∧ b.publicKeys = a.publicKeys
      ∧ b.keyTypes = a.keyTypes := by
  cases o with
  | none =>
    simp only [updName] at h
    cases h
    exact ⟨rfl, rfl, rfl, rfl, rfl, rfl⟩
  | some n =>
    simp only [updName] at h
    split at h
    · cases h
    · cases h; exact ⟨rfl, rfl, rfl, rfl, rfl, rfl⟩

theorem updDescription_same {a : Agent} {o : Option (List Char)} {b : Agent}
    (h : updDescription a o = Except.ok b) :
    b.keyCount = a.keyCount ∧ b.keyRevoked = a.keyRevoked ∧ b.nonce = a.nonce
      ∧ b.active = a.active ∧ b.publicKeys = a.publicKeys
      ∧ b.keyTypes = a.keyTypes := by
  cases o with
  | none =>
    simp only [updDescription] at h
    cases h
    exact ⟨rfl, rfl, rfl, rfl, rfl, rfl⟩
  | some d =>
    simp only [updDescription] at h
    split at h
    · cases h
    · cases h; exact ⟨rfl, rfl, rfl, rfl, rfl, rfl⟩

theorem updEndpoint_same {a : Agent} {o : Option (List Char)} {b : Agent}
    (h : updEndpoint a o = Except.ok b) :
    b.keyCount = a.keyCount ∧ b.keyRevoked = a.keyRevoked ∧ b.nonce = a.nonce
      ∧ b.active = a.active ∧ b.publicKeys = a.publicKeys
      ∧ b.keyTypes = a.keyTypes := by
  cases o with
  | none =>
    simp only [updEndpoint] at h
    cases h
    exact ⟨rfl, rfl, rfl, rfl, rfl, rfl⟩
  | some e =>
    simp only [updEndpoint] at h
    split at h
    · cases h
    · cases h; exact ⟨rfl, rfl, rfl, rfl, rfl, rfl⟩

theorem updCapabilities_same {a : Agent} {o : Option (List Char)} {b : Agent}
    (h : updCapabilities a o = Except.ok b) :
    b.keyCount = a.keyCount ∧ b.keyRevoked = a.keyRevoked ∧ b.nonce = a.nonce
      ∧ b.active = a.active ∧ b.publicKeys = a.publicKeys
      ∧ b.keyTypes = a.keyTypes := by
  cases o with
  | none =>
    simp only [updCapabilities] at h
    cases h
    exact ⟨rfl, rfl, rfl, rfl, rfl, rfl⟩
  | some c =>
    simp only [updCapabilities] at h
    split at h
    · cases h
    · cases h; exact ⟨rfl, rfl, rfl, rfl, rfl, rfl⟩

theorem updateAgent_same {a : Agent} {n d e c : Option (List Char)} {now : Int}
    {b : Agent} (h : updateAgent a n d e c now = Except.ok b) :
    b.keyCount = a.keyCount ∧ b.keyRevoked = a.keyRevoked ∧ b.nonce = a.nonce
      ∧ b.active = a.active ∧ b.publicKeys = a.publicKeys
      ∧ b.keyTypes = a.keyTypes := by
  unfold updateAgent at h
  split at h
  next => cases h
  next a1 h1 =>
  split at h
  next => cases h
  next a2 h2 =>
  split at h
  next => cases h
  next a3 h3 =>
  split at h
  next => cases h
  next a4 h4 =>
    cases h
    obtain ⟨k1, r1, n1, c1, p1, t1⟩ := updName_same h1
    obtain ⟨k2, r2, n2, c2, p2, t2⟩ := updDescription_same h2
    obtain ⟨k3, r3, n3, c3, p3, t3⟩ := updEndpoint_same h3
    obtain ⟨k4, r4, n4, c4, p4, t4⟩ := updCapabilities_same h4
    exact ⟨k4.trans (k3.trans (k2.trans k1)), r4.trans (r3.trans (r2.trans r1)),
      n4.trans (n3.trans (n2.trans n1)), c4.trans (c3.trans (c2.trans c1)),
      p4.trans (p3.trans (p2.trans p1)), t4.trans (t3.trans (t2.trans t1))⟩

/-! ### Registry invariants -/

theorem active_pos {a : Agent} {i : Nat} (hi : i < a.keyCount)
    (hrev : a.keyRevoked.getD i false = false) : 0 < activeKeyCount a :=
  Finset.card_pos.mpr ⟨i, Finset.mem_filter.mpr ⟨Finset.mem_range.mpr hi, hrev⟩⟩

theorem reachable_good {a : Agent} (h : ReachableAgent a) : GoodAgent a := by
  induction h with
  | @base did name description endpoint capabilities publicKeys keyTypes sigsOk owner now a hreg =>
    obtain ⟨_, _, hkc, hpos, hle, hrev, _, _, _⟩ := registerAgent_ok hreg
    refine ⟨by rw [hkc]; exact hle, by rw [hrev, List.length_replicate], ?_⟩
    have hfeq : ((Finset.range a.keyCount).filter
        fun i => a.keyRevoked.getD i false = false) = Finset.range a.keyCount :=
      Finset.filter_true_of_mem fun i _ => by rw [hrev]; exact getD_replicate _ i false
    unfold activeKeyCount
    rw [hfeq, Finset.card_range, hkc]
    exact hpos
  | @step a op hr ih =>
    cases op with
    | opAddKey pk kt s now =>
      show GoodAgent ((addKey a pk kt s now).toOption.getD a)
      cases hres : addKey a pk kt s now with
      | error e => exact ih
      | ok b =>
        obtain ⟨hb, hkc, _, _⟩ := addKey_ok_eq hres
        subst hb
        refine ⟨?_, ?_, ?_⟩
        · show a.keyCount + 1 ≤ MAX_KEYS_PER_AGENT
          exact hkc
        · show (a.keyRevoked.set a.keyCount false).length = MAX_KEYS_PER_AGENT
          rw [List.length_set]
          exact ih.2.1
        · show 0 < ((Finset.range (a.keyCount + 1)).filter
            fun i => (a.keyRevoked.set a.keyCount false).getD i false = false).card
          refine Finset.card_pos.mpr ⟨a.keyCount, Finset.mem_filter.mpr
            ⟨Finset.mem_range.mpr (Nat.lt_succ_self _), ?_⟩⟩
          exact getD_set_self _ _ false false (by rw [ih.2.1]; exact hkc)
    | opRevokeKey i now =>
      show GoodAgent ((revokeKey a i now).toOption.getD a)
      cases hres : revokeKey a i now with
      | error e => exact ih
      | ok b =>
        obtain ⟨hb, hi, hrev, hgt⟩ := revokeKey_ok_eq hres
        subst hb
        refine ⟨ih.1, ?_, ?_⟩
        · show (a.keyRevoked.set i true).length = MAX_KEYS_PER_AGENT
          rw [List.length_set]
          exact ih.2.1
        · have hmem : i ∈ (Finset.range a.keyCount).filter
              (fun j => a.keyRevoked.getD j false = false) :=
            Finset.mem_filter.mpr ⟨Finset.mem_range.mpr hi, hrev⟩
          have hsub : ((Finset.range a.keyCount).filter
                (fun j => a.keyRevoked.getD j false = false)).erase i
              ⊆ (Finset.range a.keyCount).filter
                (fun j => (a.keyRevoked.set i true).getD j false = false) := by
            intro j hj
            obtain ⟨hne, hjf⟩ := Finset.mem_erase.mp hj
            obtain ⟨hjr, hjp⟩ := Finset.mem_filter.mp hjf
            refine Finset.mem_filter.mpr ⟨hjr, ?_⟩
            rw [getD_set_ne _ i j true false (fun e => hne (e.symm))]
            exact hjp
          have hcard := Finset.card_erase_of_mem hmem
          have hle := Finset.card_le_card hsub
          unfold activeKeyCount at hgt
          show 0 < ((Finset.range a.keyCount).filter
            fun j => (a.keyRevoked.set i true).getD j false = false).card
          omega
    | opRotateKey i pk kt s now =>
      show GoodAgent ((rotateKey a i pk kt s now).toOption.getD a)
      cases hres : rotateKey a i pk kt s now with
      | error e => exact ih
      | ok b =>
        obtain ⟨hb, _, _, _⟩ := rotateKey_ok_eq hres
        subst hb
        exact ih
    | opUpdateAgent n d e c now =>
      show GoodAgent ((updateAgent a n d e c now).toOption.getD a)
      cases hres : updateAgent a n d e c now with
      | error er => exact ih
      | ok b =>
        obtain ⟨hkc, hkr, _, _, _, _⟩ := updateAgent_same hres
        show GoodAgent b
        have ih' := ih
        unfold GoodAgent activeKeyCount at ih' ⊢
        simp only [hkc, hkr]
        exact ih'
    | opDeactivate now =>
      show GoodAgent ((deactivateAgent a now).toOption.getD a)
      cases hres : deactivateAgent a now with
      | error e => exact ih
      | ok b =>
        obtain ⟨hb, _⟩ := deactivateAgent_ok_eq hres
        subst hb
        exact ih

/-- C3: `revoke_key(i)` fails with `InvalidKeyIndex` when `i >= key_count`,
with `KeyAlreadyRevoked` when `key_revoked[i]` is already set, with
`CannotRevokeLastKey` when exactly one non-revoked key remains below
`key_count`, and otherwise sets `key_revoked[i] = true` (incrementing the
nonce, stamping `updated_at`); every state reachable from a registration
keeps at least one non-revoked key. -/
theorem revokeKey_spec (a : Agent) (i : Nat) (now : Int) :
    (¬ i < a.keyCount → revokeKey a i now = Except.error RegErr.InvalidKeyIndex)
    ∧ (i < a.keyCount → a.keyRevoked.getD i false = true →
        revokeKey a i now = Except.error RegErr.KeyAlreadyRevoked)
    ∧ (i < a.keyCount → a.keyRevoked.getD i false = false → activeKeyCount a = 1 →
        revokeKey a i now = Except.error RegErr.CannotRevokeLastKey)
    ∧ (i < a.keyCount → a.keyRevoked.getD i false = false → activeKeyCount a ≠ 1 →
        revokeKey a i now = Except.ok
          { a with keyRevoked := a.keyRevoked.set i true
                   nonce := (a.nonce + 1) % U64
                   updatedAt := now })
    ∧ (ReachableAgent a → 1 ≤ activeKeyCount a) := by
  refine ⟨?_, ?_, ?_, ?_, fun hr => (reachable_good hr).2.2⟩
  · intro hlt
    unfold revokeKey
    exact if_pos hlt
  · intro hi hrev
    unfold revokeKey
    rw [if_neg (not_not_intro hi), if_pos hrev]
  · intro hi hrev hone
    unfold revokeKey
    rw [if_neg (not_not_intro hi), if_neg (by rw [hrev]; decide),
      if_pos (by rw [hone]; decide)]
  · intro hi hrev hne
    have hpos : 0 < activeKeyCount a := active_pos hi hrev
    have hgt : activeKeyCount a > 1 := by omega
    unfold revokeKey
    rw [if_neg (not_not_intro hi), if_neg (by rw [hrev]; decide),
      if_neg (not_not_intro hgt)]

/-- C3 witness: on the two-key `sampleAgent` (reachable via a concrete
registration), revoking key 0 succeeds and revoking out-of-range key 7
fails with `InvalidKeyIndex`. -/
theorem revokeKey_spec_witness :
    revokeKey sampleAgent 0 3 = Except.ok
      { sampleAgent with keyRevoked := sampleAgent.keyRevoked.set 0 true
                         nonce := (sampleAgent.nonce + 1) % U64
                         updatedAt := 3 }
    ∧ revokeKey sampleAgent 7 3 = Except.error RegErr.InvalidKeyIndex
    ∧ 1 ≤ activeKeyCount sampleAgent :=
  ⟨(revokeKey_spec sampleAgent 0 3).2.2.2.1 (by decide) (by decide) (by decide),
   (revokeKey_spec sampleAgent 7 3).1 (by decide),
   (revokeKey_spec sampleAgent 7 3).2.2.2.2 (ReachableAgent.base
     (show registerAgent "did:sage:a:b".toList "n".toList "ds".toList
        "ep".toList "cp".toList [sampleKey1, sampleKey2] [0, 0] [true, true]
        7 0 = Except.ok sampleAgent from rfl))⟩

/-! ### Nonce lifecycle -/

theorem runOps_append (a : Agent) (l1 l2 : List RegOp) :
    runOps a (l1 ++ l2) = runOps (runOps a l1) l2 := by
  simp [runOps]

theorem stepOk_nonce_le (a : Agent) (op : RegOp) :
    (stepOk a op).nonce ≤ a.nonce + 1 := by
  cases op with
  | opAddKey pk kt s now =>
    show ((addKey a pk kt s now).toOption.getD a).nonce ≤ a.nonce + 1
    cases hres : addKey a pk kt s now with
    | error e => exact Nat.le_succ a.nonce
    | ok b =>
      obtain ⟨hb, _, _, _⟩ := addKey_ok_eq hres
      subst hb
      exact Nat.mod_le _ _
  | opRevokeKey i now =>
    show ((revokeKey a i now).toOption.getD a).nonce ≤ a.nonce + 1
    cases hres : revokeKey a i now with
    | error e => exact Nat.le_succ a.nonce
    | ok b =>
      obtain ⟨hb, _, _, _⟩ := revokeKey_ok_eq hres
      subst hb
      exact Nat.mod_le _ _
  | opRotateKey i pk kt s now =>
    show ((rotateKey a i pk kt s now).toOption.getD a).nonce ≤ a.nonce + 1
    cases hres : rotateKey a i pk kt s now with
    | error e => exact Nat.le_succ a.nonce
    | ok b =>
      obtain ⟨hb, _, _, _⟩ := rotateKey_ok_eq hres
      subst hb
      exact Nat.mod_le _ _
  | opUpdateAgent n d e c now =>
    show ((updateAgent a n d e c now).toOption.getD a).nonce ≤ a.nonce + 1
    cases hres : updateAgent a n d e c now with
    | error er => exact Nat.le_succ a.nonce
    | ok b =>
      have hn := (updateAgent_same hres).2.2.1
      show b.nonce ≤ a.nonce + 1
      rw [hn]
      exact Nat.le_succ _
  | opDeactivate now =>
    show ((deactivateAgent a now).toOption.getD a).nonce ≤ a.nonce + 1
    cases hres : deactivateAgent a now with
    | error e => exact Nat.le_succ a.nonce
    | ok b =>
      obtain ⟨hb, _⟩ := deactivateAgent_ok_eq hres
      subst hb
      exact Nat.le_succ a.nonce

theorem stepOk_nonce_ge (a : Agent) (op : RegOp) (h : a.nonce + 1 < U64) :
    a.nonce ≤ (stepOk a op).nonce := by
  cases op with
  | opAddKey pk kt s now =>
    show a.nonce ≤ ((addKey a pk kt s now).toOption.getD a).nonce
    cases hres : addKey a pk kt s now with
    | error e => exact Nat.le_refl a.nonce
    | ok b =>
      obtain ⟨hb, _, _, _⟩ := addKey_ok_eq hres
      subst hb
      show a.nonce ≤ (a.nonce + 1) % U64
      rw [Nat.mod_eq_of_lt h]
      exact Nat.le_succ _
  | opRevokeKey i now =>
    show a.nonce ≤ ((revokeKey a i now).toOption.getD a).nonce
    cases hres : revokeKey a i now with
    | error e => exact Nat.le_refl a.nonce
    | ok b =>
      obtain ⟨hb, _, _, _⟩ := revokeKey_ok_eq hres
      subst hb
      show a.nonce ≤ (a.nonce + 1) % U64
      rw [Nat.mod_eq_of_lt h]
      exact Nat.le_succ _
  | opRotateKey i pk kt s now =>
    show a.nonce ≤ ((rotateKey a i pk kt s now).toOption.getD a).nonce
    cases hres : rotateKey a i pk kt s now with
    | error e => exact Nat.le_refl a.nonce
    | ok b =>
      obtain ⟨hb, _, _, _⟩ := rotateKey_ok_eq hres
      subst hb
      show a.nonce ≤ (a.nonce + 1) % U64
      rw [Nat.mod_eq_of_lt h]
      exact Nat.le_succ _
  | opUpdateAgent n d e c now =>
    show a.nonce ≤ ((updateAgent a n d e c now).toOption.getD a).nonce
    cases hres : updateAgent a n d e c now with
    | error er => exact Nat.le_refl a.nonce
    | ok b =>
      have hn := (updateAgent_same hres).2.2.1
      show a.nonce ≤ b.nonce
      rw [hn]
  | opDeactivate now =>
    show a.nonce ≤ ((deactivateAgent a now).toOption.getD a).nonce
    cases hres : deactivateAgent a now with
    | error e => exact Nat.le_refl a.nonce
    | ok b =>
      obtain ⟨hb, _⟩ := deactivateAgent_ok_eq hres
      subst hb
      exact Nat.le_refl a.nonce

theorem runOps_nonce_le : ∀ (ops : List RegOp) (a : Agent),
    (runOps a ops).nonce ≤ a.nonce + ops.length
  | [], a => Nat.le_refl a.nonce
  | op :: ops, a => by
    have h1 := stepOk_nonce_le a op
    have h2 := runOps_nonce_le ops (stepOk a op)
    show (runOps (stepOk a op) ops).nonce ≤ a.nonce + (ops.length + 1)
    omega

theorem runOps_nonce_ge : ∀ (ops : List RegOp) (a : Agent),
    a.nonce + ops.length < U64 → a.nonce ≤ (runOps a ops).nonce
  | [], a, _ => Nat.le_refl a.nonce
  | op :: ops, a, h => by
    have h1 := stepOk_nonce_le a op
    have hstep : a.nonce ≤ (stepOk a op).nonce :=
      stepOk_nonce_ge a op (by simp [List.length_cons] at h; omega)
    have hrec : (stepOk a op).nonce ≤ (runOps (stepOk a op) ops).nonce := by
      apply runOps_nonce_ge ops (stepOk a op)
      simp [List.length_cons] at h
      omega
    show a.nonce ≤ (runOps (stepOk a op) ops).nonce
    omega

/-- C4: every agent's nonce is 0 on registration, goes up by exactly one
on each successful `add_key`, `revoke_key` and `rotate_key` (as a u64,
i.e. `(nonce + 1) % 2^64`, which is `nonce + 1` below the u64 bound), is
unchanged by `update_agent` and `deactivate_agent`, and is therefore
monotonically non-decreasing along every lifetime of fewer than `2^64`
instructions. -/
theorem nonce_lifecycle :
    (∀ (did name description endpoint capabilities : List Char)
        (publicKeys : List (List Nat)) (keyTypes : List Nat) (sigsOk : List Bool)
        (owner : Nat) (now : Int) (a : Agent),
      registerAgent did name description endpoint capabilities
        publicKeys keyTypes sigsOk owner now = Except.ok a → a.nonce = 0)
    ∧ (∀ (a : Agent) pk kt s now b, addKey a pk kt s now = Except.ok b →
        b.nonce = (a.nonce + 1) % U64 ∧ (a.nonce + 1 < U64 → b.nonce = a.nonce + 1))
    ∧ (∀ (a : Agent) i now b, revokeKey a i now = Except.ok b →
        b.nonce = (a.nonce + 1) % U64 ∧ (a.nonce + 1 < U64 → b.nonce = a.nonce + 1))
    ∧ (∀ (a : Agent) i pk kt s now b, rotateKey a i pk kt s now = Except.ok b →
        b.nonce = (a.nonce + 1) % U64 ∧ (a.nonce + 1 < U64 → b.nonce = a.nonce + 1))
    ∧ (∀ (a : Agent) n d e c now b, updateAgent a n d e c now = Except.ok b →
        b.nonce = a.nonce)
    ∧ (∀ (a : Agent) now b, deactivateAgent a now = Except.ok b → b.nonce = a.nonce)
    ∧ (∀ (a : Agent) (ops extra : List RegOp), a.nonce = 0 →
        (ops ++ extra).length < U64 →
        (runOps a ops).nonce ≤ (runOps a (ops ++ extra)).nonce) := by
  refine ⟨?_, ?_, ?_, ?_, ?_, ?_, ?_⟩
  · intro did name description endpoint capabilities publicKeys keyTypes sigsOk owner now a h
    exact (registerAgent_ok h).1
  · intro a pk kt s now b h
    obtain ⟨hb, _, _, _⟩ := addKey_ok_eq h
    subst hb
    exact ⟨rfl, fun hlt => Nat.mod_eq_of_lt hlt⟩
  · intro a i now b h
    obtain ⟨hb, _, _, _⟩ := revokeKey_ok_eq h
    subst hb
    exact ⟨rfl, fun hlt => Nat.mod_eq_of_lt hlt⟩
  · intro a i pk kt s now b h
    obtain ⟨hb, _, _, _⟩ := rotateKey_ok_eq h
    subst hb
    exact ⟨rfl, fun hlt => Nat.mod_eq_of_lt hlt⟩
  · intro a n d e c now b h
    exact (updateAgent_same h).2.2.1
  · intro a now b h
    obtain ⟨hb, _⟩ := deactivateAgent_ok_eq h
    subst hb
    rfl
  · intro a ops extra h0 hlen
    rw [runOps_append]
    apply runOps_nonce_ge
    have hle := runOps_nonce_le ops a
    rw [List.length_append] at hlen
    omega

/-- C4 witness: the nonce facts applied to the concrete registration of
`sampleAgent`, a concrete `add_key` on it, and a concrete two-step trace. -/
theorem nonce_lifecycle_witness :
    sampleAgent.nonce = 0
    ∧ ({ sampleAgent with
         publicKeys := sampleAgent.publicKeys.set sampleAgent.keyCount zeroKey
         keyTypes := sampleAgent.keyTypes.set sampleAgent.keyCount 0
         keyRevoked := sampleAgent.keyRevoked.set sampleAgent.keyCount false
         keyCount := sampleAgent.keyCount + 1
         nonce := (sampleAgent.nonce + 1) % U64
         updatedAt := 2 } : Agent).nonce = sampleAgent.nonce + 1
    ∧ (runOps sampleAgent [RegOp.opRevokeKey 0 1]).nonce
        ≤ (runOps sampleAgent ([RegOp.opRevokeKey 0 1] ++ [RegOp.opDeactivate 2])).nonce :=
  ⟨nonce_lifecycle.1 "did:sage:a:b".toList "n".toList "ds".toList "ep".toList
      "cp".toList [sampleKey1, sampleKey2] [0, 0] [true, true] 7 0 sampleAgent rfl,
   (nonce_lifecycle.2.1 sampleAgent zeroKey 0 true 2 _ rfl).2 (by decide),
   nonce_lifecycle.2.2.2.2.2.2 sampleAgent [RegOp.opRevokeKey 0 1]
     [RegOp.opDeactivate 2] rfl (by decide)⟩

/-! ### The `active` flag and mutating instructions -/

theorem activeKeyCount_inactive (a : Agent) :
    activeKeyCount { a with active := false } = activeKeyCount a := rfl

theorem updName_inactive (a : Agent) (o : Option (List Char)) :
    updName { a with active := false } o
      = (updName a o).map fun b => { b with active := false } := by
  cases o with
  | none => rfl
  | some n =>
    simp only [updName, Except.map]
    split_ifs <;> rfl

theorem updDescription_inactive (a : Agent) (o : Option (List Char)) :
    updDescription { a with active := false } o
      = (updDescription a o).map fun b => { b with active := false } := by
  cases o with
  | none => rfl
  | some d =>
    simp only [updDescription, Except.map]
    split_ifs <;> rfl

theorem updEndpoint_inactive (a : Agent) (o : Option (List Char)) :
    updEndpoint { a with active := false } o
      = (updEndpoint a o).map fun b => { b with active := false } := by
  cases o with
  | none => rfl
  | some e =>
    simp only [updEndpoint, Except.map]
    split_ifs <;> rfl

theorem updCapabilities_inactive (a : Agent) (o : Option (List Char)) :
    updCapabilities { a with active := false } o
      = (updCapabilities a o).map fun b => { b with active := false } := by
  cases o with
  | none => rfl
  | some c =>
    simp only [updCapabilities, Except.map]
    split_ifs <;> rfl

/-- C1 (amended): the registry's mutating instructions do not consult the
`active` flag: `add_key`, `revoke_key`, `rotate_key` and `update_agent`
behave on a deactivated agent exactly as on the same agent with
`active = true` (same success or failure, same state change, `active`
itself untouched), so they can succeed on an inactive agent; only
`deactivate_agent` checks the flag, failing with `AgentAlreadyInactive`
and leaving the account unchanged. -/
theorem mutations_ignore_active :
    (∀ (a : Agent) (pk : List Nat) (kt : Nat) (s : Bool) (now : Int),
       addKey { a with active := false } pk kt s now
         = (addKey a pk kt s now).map fun b => { b with active := false })
    ∧ (∀ (a : Agent) (i : Nat) (now : Int),
       revokeKey { a with active := false } i now
         = (revokeKey a i now).map fun b => { b with active := false })
    ∧ (∀ (a : Agent) (i : Nat) (pk : List Nat) (kt : Nat) (s : Bool) (now : Int),
       rotateKey { a with active := false } i pk kt s now
         = (rotateKey a i pk kt s now).map fun b => { b with active := false })
    ∧ (∀ (a : Agent) (n d e c : Option (List Char)) (now : Int),
       updateAgent { a with active := false } n d e c now
         = (updateAgent a n d e c now).map fun b => { b with active := false })
    ∧ (∀ (a : Agent) (now : Int), a.active = false →
        deactivateAgent a now = Except.error RegErr.AgentAlreadyInactive
        ∧ stepOk a (RegOp.opDeactivate now) = a) := by
  refine ⟨?_, ?_, ?_, ?_, ?_⟩
  · intro a pk kt s now
    simp only [addKey, Except.map]
    split_ifs <;> rfl
  · intro a i now
    simp only [revokeKey, Except.map, activeKeyCount_inactive]
    split_ifs <;> rfl
  · intro a i pk kt s now
    simp only [rotateKey, Except.map]
    split_ifs <;> rfl
  · intro a n d e c now
    unfold updateAgent
    rw [updName_inactive]
    cases h1 : updName a n with
    | error er => rfl
    | ok a1 =>
      simp only [Except.map]
      rw [updDescription_inactive]
      cases h2 : updDescription a1 d with
      | error er => rfl
      | ok a2 =>
        simp only [Except.map]
        rw [updEndpoint_inactive]
        cases h3 : updEndpoint a2 e with
        | error er => rfl
        | ok a3 =>
          simp only [Except.map]
          rw [updCapabilities_inactive]
          cases h4 : updCapabilities a3 c with
          | error er => rfl
          | ok a4 => rfl
  · intro a now h
    have herr : deactivateAgent a now = Except.error RegErr.AgentAlreadyInactive := by
      simp [deactivateAgent, h]
    refine ⟨herr, ?_⟩
    show (deactivateAgent a now).toOption.getD a = a
    rw [herr]
    rfl

/-- C1 witness: the ignoring-`active` facts applied to the concrete
deactivated `inactiveAgent`. -/
theorem mutations_ignore_active_witness :
    deactivateAgent inactiveAgent 3 = Except.error RegErr.AgentAlreadyInactive
    ∧ stepOk inactiveAgent (RegOp.opDeactivate 3) = inactiveAgent :=
  mutations_ignore_active.2.2.2.2 inactiveAgent 3 rfl

/-- C1 counterexample: `revoke_key` on the deactivated `inactiveAgent`
succeeds and changes its state (revokes key 0, bumps the nonce), refuting
the claim that every mutating instruction on an inactive agent fails and
leaves the state unchanged. -/
theorem inactive_agent_mutation_succeeds :
    revokeKey inactiveAgent 0 1
      = Except.ok { inactiveAgent with
                    keyRevoked := inactiveAgent.keyRevoked.set 0 true
                    nonce := (inactiveAgent.nonce + 1) % U64
                    updatedAt := 1 }
    ∧ { inactiveAgent with
        keyRevoked := inactiveAgent.keyRevoked.set 0 true
        nonce := (inactiveAgent.nonce + 1) % U64
        updatedAt := 1 } ≠ inactiveAgent := by
  exact ⟨rfl, by decide⟩

/-! ### Verification hook -/

/-- C6: `verify_registration` succeeds exactly when the user is not
blacklisted, the cooldown holds (`last_registration == 0` or
`now >= last_registration + 60`), the post-rollover count is below 5, the
DID starts with `did:` with length at least 10, and the signature
verifies; and whenever the blacklist and cooldown checks pass and
`last_day` differs from `now / 86400`, the day-rollover reset is applied
to the resulting state even when a later check fails.  (Stated for the
reachable states with `0 <= last_registration`; the code tests
`last_registration > 0` where the claim says `== 0`.) -/
theorem verifyRegistration_spec (u : UserState) (did : List Char) (sigOk : Bool)
    (now : Int) (hlr : 0 ≤ u.lastRegistration) :
    ((verifyRegistration u did sigOk now).fst = Except.ok () ↔
      (u.blacklisted = false
        ∧ (u.lastRegistration = 0 ∨ u.lastRegistration + 60 ≤ now)
        ∧ (if u.lastDay ≠ Int.tdiv now 86400 then 0 else u.registrationCount) < 5
        ∧ startsWithDid did = true ∧ 10 ≤ did.length ∧ sigOk = true))
    ∧ (u.blacklisted = false →
        (u.lastRegistration = 0 ∨ u.lastRegistration + 60 ≤ now) →
        u.lastDay ≠ Int.tdiv now 86400 →
        (verifyRegistration u did sigOk now).snd.registrationCount = 0
        ∧ (verifyRegistration u did sigOk now).snd.lastDay = Int.tdiv now 86400) := by
  simp only [verifyRegistration, REGISTRATION_COOLDOWN, MAX_REGISTRATIONS_PER_DAY]
  split_ifs <;> simp_all <;> omega

/-- C6 witness: a user with count 3 the same day registers successfully at
59+ seconds past the cooldown; a user at the daily limit with a stale
`last_day` has the reset persisted (count 0, new day) even though the
signature check fails. -/
theorem verifyRegistration_spec_witness :
    (verifyRegistration
      { registrationCount := 3, lastRegistration := 100, lastDay := 0, blacklisted := false }
      "did:sage:a:b".toList true 200).fst = Except.ok ()
    ∧ (verifyRegistration
        { registrationCount := 5, lastRegistration := 0, lastDay := 1, blacklisted := false }
        "did:sage:a:b".toList false 200).snd.registrationCount = 0
    ∧ (verifyRegistration
        { registrationCount := 5, lastRegistration := 0, lastDay := 1, blacklisted := false }
        "did:sage:a:b".toList false 200).snd.lastDay = Int.tdiv 200 86400 :=
  ⟨(verifyRegistration_spec
      { registrationCount := 3, lastRegistration := 100, lastDay := 0, blacklisted := false }
      "did:sage:a:b".toList true 200 (by decide)).1.mpr (by decide),
   (verifyRegistration_spec
      { registrationCount := 5, lastRegistration := 0, lastDay := 1, blacklisted := false }
      "did:sage:a:b".toList false 200 (by decide)).2 rfl (Or.inl rfl) (by decide) |>.1,
   (verifyRegistration_spec
      { registrationCount := 5, lastRegistration := 0, lastDay := 1, blacklisted := false }
      "did:sage:a:b".toList false 200 (by decide)).2 rfl (Or.inl rfl) (by decide) |>.2⟩

/-! ### HPKE context -/

theorem nonce12_length (seq : Nat) : (nonce12 seq).length = 12 := rfl

/-- C10: `open` on an input shorter than 12 bytes returns an error and
leaves the sequence untouched; on any input of length at least 12 it sets
`sequence := (sequence + 1) % 2^64` whether or not decryption succeeds
(exactly +1 below the u64 bound). -/
theorem hpkeOpen_sequence (A : Aead) (ctx : HpkeContext) (c : List Nat) :
    (c.length < 12 → hpkeOpen A ctx c = (Except.error SdkError.decryptionErr, ctx))
    ∧ (¬c.length < 12 →
        (hpkeOpen A ctx c).snd = { ctx with sequence := (ctx.sequence + 1) % U64 }
        ∧ (ctx.sequence + 1 < U64 →
            (hpkeOpen A ctx c).snd.sequence = ctx.sequence + 1)) := by
  constructor
  · intro h
    unfold hpkeOpen
    rw [if_pos h]
  · intro h
    unfold hpkeOpen
    rw [if_neg h]
    exact ⟨rfl, fun hlt => Nat.mod_eq_of_lt hlt⟩

/-- C10 witness: a 1-byte input errors with the context unchanged; a
12-byte garbage input advances the sequence from 0 to 1 even though it is
not a valid ciphertext. -/
theorem hpkeOpen_sequence_witness :
    hpkeOpen toyAead { key := [], sequence := 0 } [1]
      = (Except.error SdkError.decryptionErr, { key := [], sequence := 0 })
    ∧ (hpkeOpen toyAead { key := [], sequence := 0 } (List.replicate 12 0)).snd.sequence
        = 0 + 1 :=
  ⟨(hpkeOpen_sequence toyAead { key := [], sequence := 0 } [1]).1 (by decide),
   ((hpkeOpen_sequence toyAead { key := [], sequence := 0 }
      (List.replicate 12 0)).2 (by decide)).2 (by decide)⟩

theorem seal_open_lockstep (A : Aead) (sctx rctx : HpkeContext) (pt : List Nat)
    (haead : ∀ k n p, A.dec k n (A.enc k n p) = some p)
    (hk : rctx.key = sctx.key) (h32 : sctx.key.length = 32) :
    hpkeSeal A sctx pt
      = (Except.ok (nonce12 sctx.sequence
            ++ A.enc sctx.key (nonce12 sctx.sequence) pt),
         { sctx with sequence := (sctx.sequence + 1) % U64 })
    ∧ hpkeOpen A rctx (nonce12 sctx.sequence
          ++ A.enc sctx.key (nonce12 sctx.sequence) pt)
      = (Except.ok pt, { rctx with sequence := (rctx.sequence + 1) % U64 }) := by
  constructor
  · simp only [hpkeSeal, encryptAesGcm]
    rw [if_neg (not_not_intro h32), if_neg (not_not_intro (nonce12_length sctx.sequence))]
  · have hlen : ¬(nonce12 sctx.sequence
        ++ A.enc sctx.key (nonce12 sctx.sequence) pt).length < 12 := by
      rw [List.length_append, nonce12_length]
      omega
    simp only [hpkeOpen]
    rw [if_neg hlen]
    have htake : (nonce12 sctx.sequence
        ++ A.enc sctx.key (nonce12 sctx.sequence) pt).take 12 = nonce12 sctx.sequence :=
      List.take_left' (nonce12_length sctx.sequence)
    have hdrop : (nonce12 sctx.sequence
        ++ A.enc sctx.key (nonce12 sctx.sequence) pt).drop 12
          = A.enc sctx.key (nonce12 sctx.sequence) pt :=
      List.drop_left' (nonce12_length sctx.sequence)
    rw [htake, hdrop]
    simp only [decryptAesGcm]
    rw [if_neg (not_not_intro (hk.symm ▸ h32 : rctx.key.length = 32)),
      if_neg (not_not_intro (nonce12_length sctx.sequence)), hk, haead]

/-- C5: sender and receiver HPKE contexts set up from a corresponding
X25519 pair (with commutative DH and a length-32 KDF) derive the same
32-byte AEAD key, start at sequence 0, and as long as the peers' contexts
have equal keys and equal sequence counters, `receiver.open(sender.seal(P))
= P` with both counters advancing in lockstep — so in-order exchanges
round-trip, message by message. -/
theorem hpke_sender_receiver_agree (P : HpkeCrypto) (A : Aead) (priv eph pt : List Nat)
    (hdh : ∀ a b, P.dh a (P.pubOf b) = P.dh b (P.pubOf a))
    (haead : ∀ k n p, A.dec k n (A.enc k n p) = some p)
    (hkdf : ∀ s i, (P.kdf s i 32).length = 32)
    (hpl : priv.length = 32)
    (hpub : (P.pubOf priv).length = 32)
    (hepub : (P.pubOf eph).length = 32) :
    ∃ (sctx rctx : HpkeContext),
      setupHpkeSender P eph (P.pubOf priv) = Except.ok (sctx, P.pubOf eph)
      ∧ setupHpkeReceiver P (P.pubOf eph) priv = Except.ok rctx
      ∧ rctx.key = sctx.key ∧ sctx.key.length = 32
      ∧ sctx.sequence = 0 ∧ rctx.sequence = 0
      ∧ (∃ ct, (hpkeSeal A sctx pt).fst = Except.ok ct
          ∧ (hpkeOpen A rctx ct).fst = Except.ok pt
          ∧ (hpkeSeal A sctx pt).snd.sequence = (hpkeOpen A rctx ct).snd.sequence)
      ∧ ∀ (s r : HpkeContext) (q : List Nat),
          r.key = s.key → s.key.length = 32 → s.sequence = r.sequence →
          ∃ ct, (hpkeSeal A s q).fst = Except.ok ct
            ∧ (hpkeOpen A r ct).fst = Except.ok q
            ∧ (hpkeSeal A s q).snd.key = s.key
            ∧ (hpkeOpen A r ct).snd.key = r.key
            ∧ (hpkeSeal A s q).snd.sequence = (hpkeOpen A r ct).snd.sequence := by
  have hgen : ∀ (s r : HpkeContext) (q : List Nat),
      r.key = s.key → s.key.length = 32 → s.sequence = r.sequence →
      ∃ ct, (hpkeSeal A s q).fst = Except.ok ct
        ∧ (hpkeOpen A r ct).fst = Except.ok q
        ∧ (hpkeSeal A s q).snd.key = s.key
        ∧ (hpkeOpen A r ct).snd.key = r.key
        ∧ (hpkeSeal A s q).snd.sequence = (hpkeOpen A r ct).snd.sequence := by
    intro s r q hk h32 hs
    obtain ⟨hseal, hopen⟩ := seal_open_lockstep A s r q haead hk h32
    refine ⟨nonce12 s.sequence ++ A.enc s.key (nonce12 s.sequence) q,
      by rw [hseal], by rw [hopen], by rw [hseal], by rw [hopen], ?_⟩
    rw [hseal, hopen]
    show (s.sequence + 1) % U64 = (r.sequence + 1) % U64
    rw [hs]
  refine ⟨{ key := P.kdf (P.dh eph (P.pubOf priv)) infoSage 32, sequence := 0 },
    { key := P.kdf (P.dh eph (P.pubOf priv)) infoSage 32, sequence := 0 },
    ?_, ?_, rfl, hkdf _ _, rfl, rfl, ?_, hgen⟩
  · unfold setupHpkeSender
    rw [if_neg (not_not_intro hpub)]
  · unfold setupHpkeReceiver
    rw [if_neg (not_not_intro hpl), if_neg (not_not_intro hepub), hdh priv eph]
  · obtain ⟨ct, h1, h2, _, _, h5⟩ := hgen
      { key := P.kdf (P.dh eph (P.pubOf priv)) infoSage 32, sequence := 0 }
      { key := P.kdf (P.dh eph (P.pubOf priv)) infoSage 32, sequence := 0 }
      pt rfl (hkdf _ _) rfl
    exact ⟨ct, h1, h2, h5⟩

/-- C5 witness: the agreement and round-trip facts instantiated on the
executable toy primitives at concrete 32-byte keys and plaintext
`[1, 2, 3]`. -/
theorem hpke_sender_receiver_agree_witness :
    ∃ (sctx rctx : HpkeContext),
      setupHpkeSender toyHpke (List.replicate 32 1)
          (toyHpke.pubOf (List.replicate 32 0))
        = Except.ok (sctx, toyHpke.pubOf (List.replicate 32 1))
      ∧ setupHpkeReceiver toyHpke (toyHpke.pubOf (List.replicate 32 1))
          (List.replicate 32 0) = Except.ok rctx
      ∧ rctx.key = sctx.key ∧ sctx.key.length = 32
      ∧ sctx.sequence = 0 ∧ rctx.sequence = 0
      ∧ (∃ ct, (hpkeSeal toyAead sctx [1, 2, 3]).fst = Except.ok ct
          ∧ (hpkeOpen toyAead rctx ct).fst = Except.ok [1, 2, 3]
          ∧ (hpkeSeal toyAead sctx [1, 2, 3]).snd.sequence
              = (hpkeOpen toyAead rctx ct).snd.sequence)
      ∧ ∀ (s r : HpkeContext) (q : List Nat),
          r.key = s.key → s.key.length = 32 → s.sequence = r.sequence →
          ∃ ct, (hpkeSeal toyAead s q).fst = Except.ok ct
            ∧ (hpkeOpen toyAead r ct).fst = Except.ok q
            ∧ (hpkeSeal toyAead s q).snd.key = s.key
            ∧ (hpkeOpen toyAead r ct).snd.key = r.key
            ∧ (hpkeSeal toyAead s q).snd.sequence = (hpkeOpen toyAead r ct).snd.sequence :=
  hpke_sender_receiver_agree toyHpke toyAead (List.replicate 32 0)
    (List.replicate 32 1) [1, 2, 3]
    (fun a b => by simp [toyHpke, Nat.add_comm])
    (fun k n p => rfl)
    (fun s i => by simp [toyHpke])
    (by decide) (by decide) (by decide)

/-- C2 (evaluation at the failing input): `decrypt` performs no sequence
check — the very ciphertext that `seal` produced at sequence 0 is accepted
by a fresh receiver session, and the identical bytes are accepted a second
time by the resulting session, even though its embedded sequence 0 is not
greater than the highest previously accepted sequence. -/
theorem decrypt_accepts_replay :
    (hpkeSeal toyAead { key := List.replicate 32 0, sequence := 0 } [7, 7]).fst
      = Except.ok replayCiphertext
    ∧ (sessionDecrypt toyAead replaySession replayCiphertext 0).fst = Except.ok [7, 7]
    ∧ (sessionDecrypt toyAead
        (sessionDecrypt toyAead replaySession replayCiphertext 0).snd
        replayCiphertext 0).fst = Except.ok [7, 7] :=
  ⟨rfl, rfl, rfl⟩

/-! ### Session message counting -/

theorem applySOp_messageCount (A : Aead) (s : Session) (op : SOp) :
    (applySOp A s op).snd.messageCount
      = match op with
        | SOp.opEncrypt _ now =>
          if isExpired s now then s.messageCount else (s.messageCount + 1) % U64
        | SOp.opDecrypt _ _ => s.messageCount
        | SOp.opUpdateActivity _ => s.messageCount := by
  cases op with
  | opEncrypt pt now =>
    simp only [applySOp, sessionEncrypt]
    split_ifs <;> rfl
  | opDecrypt ct now =>
    simp only [applySOp, sessionDecrypt]
    split_ifs <;> rfl
  | opUpdateActivity now =>
    simp only [applySOp, updateActivity]
    split_ifs <;> rfl

theorem applySOp_key (A : Aead) (s : Session) (op : SOp) :
    (applySOp A s op).snd.hpkeContext.key = s.hpkeContext.key := by
  cases op with
  | opEncrypt pt now =>
    simp only [applySOp, sessionEncrypt, hpkeSeal]
    split_ifs
    · rfl
    · split <;> rfl
  | opDecrypt ct now =>
    simp only [applySOp, sessionDecrypt, hpkeOpen]
    split_ifs <;> rfl
  | opUpdateActivity now =>
    simp only [applySOp, updateActivity]
    split_ifs <;> rfl

theorem runSOps_messageCount (A : Aead) : ∀ (ops : List SOp) (s : Session),
    s.messageCount + ops.length < U64 →
    (runSOps A s ops).messageCount = s.messageCount + passedEncCount A s ops
  | [], s, _ => rfl
  | op :: ops, s, h => by
    have hm := applySOp_messageCount A s op
    have hle : (applySOp A s op).snd.messageCount ≤ s.messageCount + 1 := by
      rw [hm]
      cases op with
      | opEncrypt pt now =>
        show (if isExpired s now then s.messageCount else (s.messageCount + 1) % U64)
          ≤ s.messageCount + 1
        split_ifs
        · exact Nat.le_succ _
        · exact Nat.mod_le _ _
      | opDecrypt ct now => exact Nat.le_succ _
      | opUpdateActivity now => exact Nat.le_succ _
    have hlen : (op :: ops).length = ops.length + 1 := rfl
    have ih := runSOps_messageCount A ops (applySOp A s op).snd
      (by rw [hlen] at h; omega)
    show (runSOps A (applySOp A s op).snd ops).messageCount
      = s.messageCount + passedEncCount A s (op :: ops)
    rw [ih]
    cases op with
    | opEncrypt pt now =>
      have hp : passedEncCount A s (SOp.opEncrypt pt now :: ops)
          = (if isExpired s now then 0 else 1)
            + passedEncCount A (applySOp A s (SOp.opEncrypt pt now)).snd ops := rfl
      have hm2 : (applySOp A s (SOp.opEncrypt pt now)).snd.messageCount
          = if isExpired s now then s.messageCount else (s.messageCount + 1) % U64 :=
        applySOp_messageCount A s (SOp.opEncrypt pt now)
      rw [hp, hm2]
      by_cases hex : isExpired s now
      · simp [hex]
      · have hmod : (s.messageCount + 1) % U64 = s.messageCount + 1 :=
          Nat.mod_eq_of_lt (by rw [hlen] at h; omega)
        simp [hex, hmod]
        omega
    | opDecrypt ct now =>
      have hp : passedEncCount A s (SOp.opDecrypt ct now :: ops)
          = 0 + passedEncCount A (applySOp A s (SOp.opDecrypt ct now)).snd ops := rfl
      have hm2 : (applySOp A s (SOp.opDecrypt ct now)).snd.messageCount = s.messageCount :=
        applySOp_messageCount A s (SOp.opDecrypt ct now)
      rw [hp, hm2]
      omega
    | opUpdateActivity now =>
      have hp : passedEncCount A s (SOp.opUpdateActivity now :: ops)
          = 0 + passedEncCount A (applySOp A s (SOp.opUpdateActivity now)).snd ops := rfl
      have hm2 : (applySOp A s (SOp.opUpdateActivity now)).snd.messageCount = s.messageCount :=
        applySOp_messageCount A s (SOp.opUpdateActivity now)
      rw [hp, hm2]
      omega

theorem okEnc_eq_passed (A : Aead) : ∀ (ops : List SOp) (s : Session),
    s.hpkeContext.key.length = 32 →
    okEncCount A s ops = passedEncCount A s ops
  | [], _, _ => rfl
  | op :: ops, s, hk => by
    have hkey := applySOp_key A s op
    have ih := okEnc_eq_passed A ops (applySOp A s op).snd (by rw [hkey]; exact hk)
    cases op with
    | opEncrypt pt now =>
      by_cases hex : isExpired s now
      · have hfst : (applySOp A s (SOp.opEncrypt pt now)).fst
            = Except.error (SdkError.sessionExpired) := by
          simp [applySOp, sessionEncrypt, hex]
        simp only [okEncCount, passedEncCount, hfst, hex, if_true]
        simpa using ih
      · have hfst : (applySOp A s (SOp.opEncrypt pt now)).fst
            = Except.ok (nonce12 s.hpkeContext.sequence
                ++ A.enc s.hpkeContext.key (nonce12 s.hpkeContext.sequence) pt) := by
          simp only [applySOp, sessionEncrypt, hex, if_false, Bool.false_eq_true,
            hpkeSeal, encryptAesGcm]
          rw [if_neg (not_not_intro hk),
            if_neg (not_not_intro (nonce12_length s.hpkeContext.sequence))]
        simp only [okEncCount, passedEncCount, hfst, hex, if_false]
        simpa using ih
    | opDecrypt ct now =>
      simp only [okEncCount, passedEncCount]
      cases hfst : (applySOp A s (SOp.opDecrypt ct now)).fst <;> simpa using ih
    | opUpdateActivity now =>
      simp only [okEncCount, passedEncCount]
      cases hfst : (applySOp A s (SOp.opUpdateActivity now)).fst <;> simpa using ih

/-- C9 (amended): along every operation trace of fewer than `2^64`
operations on a session created with `message_count = 0`,
`message_count(S)` equals the number of `encrypt` calls that passed the
expiry check (`message_count` is incremented before `seal`, so an
`encrypt` whose `seal` fails still counts); whenever the session's
context key is 32 bytes long — as for every session built from the HPKE
setup functions — `seal` cannot fail, and the count equals the number of
successful `encrypt` calls, as claimed. -/
theorem messageCount_spec (A : Aead) (s : Session) (ops : List SOp)
    (h0 : s.messageCount = 0) (hlen : ops.length < U64) :
    (runSOps A s ops).messageCount = passedEncCount A s ops
    ∧ (s.hpkeContext.key.length = 32 →
        (runSOps A s ops).messageCount = okEncCount A s ops) := by
  have h1 : (runSOps A s ops).messageCount = s.messageCount + passedEncCount A s ops :=
    runSOps_messageCount A ops s (by omega)
  rw [h0] at h1
  refine ⟨by rw [h1]; omega, fun hk => ?_⟩
  rw [okEnc_eq_passed A ops s hk, h1]
  omega

/-- C9 witness: a one-encrypt trace on the fresh 32-byte-key
`replaySession` gives `message_count = 1 =` number of successful
encrypts. -/
theorem messageCount_spec_witness :
    (runSOps toyAead replaySession [SOp.opEncrypt [1] 0]).messageCount
      = passedEncCount toyAead replaySession [SOp.opEncrypt [1] 0]
    ∧ (runSOps toyAead replaySession [SOp.opEncrypt [1] 0]).messageCount
        = okEncCount toyAead replaySession [SOp.opEncrypt [1] 0] :=
  ⟨(messageCount_spec toyAead replaySession [SOp.opEncrypt [1] 0] rfl (by decide)).1,
   (messageCount_spec toyAead replaySession [SOp.opEncrypt [1] 0] rfl (by decide)).2
     (by decide)⟩

/-- C9 counterexample: on a session whose context key has the wrong
length (`HpkeContext::new` accepts any key), `encrypt` increments
`message_count` to 1 and then fails in `seal`, so `message_count` exceeds
the number of successful `encrypt` calls (which is 0). -/
theorem encrypt_counts_failed_seal :
    (sessionEncrypt toyAead badSession [1] 0).fst = Except.error SdkError.cryptoErr
    ∧ (sessionEncrypt toyAead badSession [1] 0).snd.messageCount = 1
    ∧ okEncCount toyAead badSession [SOp.opEncrypt [1] 0] = 0
    ∧ (runSOps toyAead badSession [SOp.opEncrypt [1] 0]).messageCount = 1 :=
  ⟨rfl, rfl, rfl, rfl⟩

/-! ### Session manager capacity -/

theorem filter_length_lt {α : Type} (p : α → Bool) :
    ∀ (l : List α) (x : α), x ∈ l → p x = false → (l.filter p).length < l.length
  | [], x, hx, _ => absurd hx (List.not_mem_nil x)
  | a :: l, x, hx, hp => by
    cases hpa : p a with
    | true =>
      have hxl : x ∈ l := by
        cases List.mem_cons.mp hx with
        | inl he => exact absurd hpa (by rw [← he, hp]; decide)
        | inr hm => exact hm
      have := filter_length_lt p l x hxl hp
      simp [List.filter_cons, hpa]
      omega
    | false =>
      have hle := List.length_filter_le p l
      simp [List.filter_cons, hpa]
      omega

/-- C7: `add_session` first removes exactly the expired sessions (every
live session survives the sweep); if the live count then still reaches
`max_sessions` it fails with the too-many-sessions error and the state is
just the swept map — no live session is evicted or replaced; otherwise it
inserts the new session into the swept map.  After removing one live
session from a manager that is full after the sweep, the next
`add_session` succeeds. -/
theorem addSession_spec :
    (∀ (m : SessionManager) (now : Int),
        (∀ p ∈ (cleanupExpired m now).fst.sessions, isExpired p.snd now = false)
        ∧ (∀ p ∈ m.sessions, isExpired p.snd now = false →
            p ∈ (cleanupExpired m now).fst.sessions))
    ∧ (∀ (m : SessionManager) (s : Session) (now : Int),
        m.maxSessions ≤ (cleanupExpired m now).fst.sessions.length →
        addSession m s now
          = (Except.error (SdkError.sessionErr), (cleanupExpired m now).fst))
    ∧ (∀ (m : SessionManager) (s : Session) (now : Int),
        (cleanupExpired m now).fst.sessions.length < m.maxSessions →
        addSession m s now
          = (Except.ok (),
             { (cleanupExpired m now).fst with
               sessions := smInsert (cleanupExpired m now).fst.sessions
                 s.sessionId s }))
    ∧ (∀ (m : SessionManager) (sid : List Char) (s0 s' : Session) (now : Int),
        (cleanupExpired m now).fst.sessions.length = m.maxSessions →
        (sid, s0) ∈ m.sessions → isExpired s0 now = false →
        (addSession (removeSession m sid) s' now).fst = Except.ok ()) := by
  refine ⟨?_, ?_, ?_, ?_⟩
  · intro m now
    constructor
    · intro p hp
      have := (List.mem_filter.mp hp).2
      cases hb : isExpired p.snd now
      · rfl
      · rw [hb] at this; cases this
    · intro p hp hlive
      exact List.mem_filter.mpr ⟨hp, by rw [hlive]; rfl⟩
  · intro m s now h
    simp only [addSession]
    rw [if_pos h]
  · intro m s now h
    simp only [addSession]
    rw [if_neg (Nat.not_le.mpr h)]
  · intro m sid s0 s' now hfull hmem hlive
    have hL : (sid, s0) ∈ m.sessions.filter fun p => !isExpired p.snd now :=
      List.mem_filter.mpr ⟨hmem, by rw [hlive]; rfl⟩
    have hcomm : (m.sessions.filter fun p => !decide (p.fst = sid)).filter
          (fun p => !isExpired p.snd now)
        = (m.sessions.filter fun p => !isExpired p.snd now).filter
          (fun p => !decide (p.fst = sid)) := by
      rw [List.filter_filter, List.filter_filter]
      apply List.filter_congr
      intro p _
      exact Bool.and_comm _ _
    have hlt : ((m.sessions.filter fun p => !isExpired p.snd now).filter
          (fun p => !decide (p.fst = sid))).length
        < (m.sessions.filter fun p => !isExpired p.snd now).length :=
      filter_length_lt _ _ (sid, s0) hL (by simp)
    simp only [addSession, removeSession, cleanupExpired]
    rw [hcomm]
    rw [if_neg (Nat.not_le.mpr (by rw [← hfull]; exact hlt))]

/-- C7 witness: a full capacity-2 manager with two live sessions rejects
a third add and keeps the swept state; after removing one of the live
sessions the next add succeeds. -/
theorem addSession_spec_witness :
    addSession fullManager sessA 0
      = (Except.error (SdkError.sessionErr), (cleanupExpired fullManager 0).fst)
    ∧ (addSession (removeSession fullManager "a".toList) sessA 0).fst
        = Except.ok () :=
  ⟨addSession_spec.2.1 fullManager sessA 0 (by decide),
   addSession_spec.2.2.2 fullManager "a".toList sessA sessA 0 (by decide)
     (by decide) (by decide)⟩

end Sage
